import Mathlib

/-!
Verification of the dependency-ordered provisioning workflow encoded by the
EKS infrastructure declarations in `__main__.py`.

The fixed resource topology (descriptors, their attributes and the
dependency edges implied by attribute references) is embedded directly from
the source file.  The surrounding workflow machinery (graph building,
Kahn topological ordering, the applier loop, export collection) is not
present in the repository as code; it is modelled from the specification,
as marked on each such definition.
-/

deriving instance DecidableEq for Except

namespace PulumiEks

/-! ## Graph nodes and Kahn ordering -/

/-- A graph node: a resource name together with the names of the
resources it depends on, in declaration order. -/
abbrev GNode := String × List String

/-- Names of the nodes of a graph, in declaration order. -/
def gnames (ns : List GNode) : List String := ns.map Prod.fst

/-- Dependencies recorded for a name: the dependency list of the first
node registered under that name, or `[]` when the name is unregistered. -/
def depsIn (ns : List GNode) (n : String) : List String :=
  ((ns.find? (fun p => p.1 == n)).map Prod.snd).getD []

/-- Modelled from the spec: the selection step of Kahn ordering — the
first (declaration order breaks ties) not-yet-emitted node all of whose
dependencies have already been emitted. -/
def selectReady (done : List String) (remaining : List GNode) : Option GNode :=
  remaining.find? (fun p => p.2.all (fun d => done.contains d))

/-- Modelled from the spec: the loop of Kahn ordering.  `fuel` bounds the
number of selection rounds, `remaining` holds the not-yet-emitted nodes in
declaration order and `done` the emitted names in emission order. -/
def kahnAux : Nat → List GNode → List String → List String
  | 0, _, done => done
  | fuel + 1, remaining, done =>
    match selectReady done remaining with
    | none => done
    | some p => kahnAux fuel (remaining.filter (fun q => q.1 != p.1)) (done ++ [p.1])

/-- Modelled from the spec: TopologicalApplier's order computation —
repeated selection of nodes with zero unresolved in-degree, ties broken by
declaration order. -/
def kahn (ns : List GNode) : List String := kahnAux ns.length ns []

/-- Restriction of every dependency list to registered names; on a graph
with no dangling reference this is the identity. -/
def restrict (ns : List GNode) : List GNode :=
  ns.map (fun p => (p.1, p.2.filter (fun d => (gnames ns).contains d)))

/-- A nonempty set of names each of which has a dependency inside the set.
A finite graph contains a (directed) cycle exactly when such a set exists:
the vertex set of any cycle qualifies, and conversely from any name of
such a set one can walk dependencies inside the set forever, which in a
finite graph revisits a name. -/
def CycleSet (ns : List GNode) (S : List String) : Prop :=
  S ≠ [] ∧ ∀ a ∈ S, ∃ b ∈ depsIn ns a, b ∈ S

/-- The dependency edges of the graph contain a cycle. -/
def HasCycle (ns : List GNode) : Prop := ∃ S, CycleSet ns S

/-- Every dependency points at a registered name (no dangling reference). -/
def ClosedDeps (ns : List GNode) : Prop :=
  ∀ p ∈ ns, ∀ d ∈ p.2, d ∈ gnames ns

/-- Graph invariant from the data model: unique names, no dangling
reference. -/
def WellFormed (ns : List GNode) : Prop :=
  (gnames ns).Nodup ∧ ClosedDeps ns

instance (ns : List GNode) : Decidable (ClosedDeps ns) :=
  inferInstanceAs (Decidable (∀ p ∈ ns, ∀ d ∈ p.2, d ∈ gnames ns))

instance (ns : List GNode) : Decidable (WellFormed ns) :=
  inferInstanceAs (Decidable (_ ∧ _))

instance (ns : List GNode) (S : List String) : Decidable (CycleSet ns S) :=
  inferInstanceAs (Decidable (_ ∧ _))

/-- Every position of the list names a node all of whose dependencies
appear strictly earlier in the list. -/
def DepsBefore (ns : List GNode) (l : List String) : Prop :=
  ∀ i (h : i < l.length), ∀ d ∈ depsIn ns (l.get ⟨i, h⟩), d ∈ l.take i

instance (ns : List GNode) (l : List String) : Decidable (DepsBefore ns l) :=
  inferInstanceAs (Decidable (∀ i (h : i < l.length), ∀ d ∈ depsIn ns (l.get ⟨i, h⟩), d ∈ l.take i))

/-- A valid apply order for a graph: a duplicate-free arrangement of
exactly the registered names in which every node comes after all of its
dependencies. -/
def TopoOrder (ns : List GNode) (l : List String) : Prop :=
  gnames ns ⊆ l ∧ l ⊆ gnames ns ∧ l.Nodup ∧ DepsBefore ns l

instance (ns : List GNode) (l : List String) : Decidable (TopoOrder ns l) :=
  inferInstanceAs (Decidable (_ ∧ _ ∧ _ ∧ _))

/-! ## JSON documents (the `json.dumps` payloads of the source) -/

/-- JSON values, restricted to the shapes the source file builds: strings,
arrays and objects with insertion-ordered fields. -/
inductive Json where
  | str (s : String)
  | arr (elems : List Json)
  | obj (fields : List (String × Json))

/-- Field lookup in a JSON object (first match), `none` on non-objects. -/
def Json.lookup : Json → String → Option Json
  | .str _, _ => none
  | .arr _, _ => none
  | .obj fs, k => (fs.find? (fun p => p.1 == k)).map Prod.snd

mutual

/-- Rendering of a JSON value the way Python's `json.dumps` renders it
with default separators: `", "` between items and `": "` after keys, keys
kept in insertion order.  None of the strings in scope needs escaping. -/
def renderJson : Json → String
  | .str s => "\"" ++ s ++ "\""
  | .arr es => "[" ++ renderElems es ++ "]"
  | .obj fs => "\x7b" ++ renderFields fs ++ "\x7d"

/-- Comma-separated rendering of array elements. -/
def renderElems : List Json → String
  | [] => ""
  | [j] => renderJson j
  | j :: rest => renderJson j ++ ", " ++ renderElems rest

/-- Comma-separated rendering of object fields. -/
def renderFields : List (String × Json) → String
  | [] => ""
  | [(k, j)] => "\"" ++ k ++ "\": " ++ renderJson j
  | (k, j) :: rest => "\"" ++ k ++ "\": " ++ renderJson j ++ ", " ++ renderFields rest

end

/-- Trust document of `eks_role` (source lines 59–68). -/
def eks_role_trust : Json :=
  .obj [("Version", .str "2012-10-17"),
        ("Statement", .arr [.obj
          [("Action", .str "sts:AssumeRole"),
           ("Effect", .str "Allow"),
           ("Principal", .obj [("Service", .str "eks.amazonaws.com")])]])]

/-- Trust document of `node_group_role` (source lines 87–96). -/
def node_group_role_trust : Json :=
  .obj [("Version", .str "2012-10-17"),
        ("Statement", .arr [.obj
          [("Action", .str "sts:AssumeRole"),
           ("Effect", .str "Allow"),
           ("Principal", .obj [("Service", .str "ec2.amazonaws.com")])]])]

/-- Trust document of `pod_role` as a function of the OIDC provider's
resolved `url` and `arn` (the dict built by the lambda of source
lines 138–152). -/
def podTrustJson (url arn : String) : Json :=
  .obj [("Version", .str "2012-10-17"),
        ("Statement", .arr [.obj
          [("Effect", .str "Allow"),
           ("Principal", .obj [("Federated", .str arn)]),
           ("Action", .str "sts:AssumeRoleWithWebIdentity"),
           ("Condition", .obj [("StringEquals", .obj
             [(url ++ ":sub", .str "system:serviceaccount:default:example-sa")])])]])]

/-- The rendered pod-role trust policy: `json.dumps` applied to the dict
built from the OIDC provider's `url` and `arn` (source lines 137–153). -/
def podTrustPolicy (url arn : String) : String :=
  renderJson (podTrustJson url arn)

/-! ## Resource descriptors (the declarations of `__main__.py`) -/

/-- A declared attribute value: a literal, a reference to another
descriptor's output attribute, or (modelling `pulumi.Output.all(x, y)
.apply(f)`) a value computed from two referenced output attributes. -/
inductive AttrVal where
  | lit (value : String)
  | ref (node attr : String)
  | all2 (node1 attr1 node2 attr2 : String) (render : String → String → String)

/-- An immutable declaration of one cloud object: kind, unique name, and
attributes whose values may be literals or unresolved references. -/
structure Descriptor where
  name : String
  kind : String
  attrs : List (String × AttrVal)

/-- The output references one attribute value makes. -/
def refsOfVal : AttrVal → List (String × String)
  | .lit _ => []
  | .ref n a => [(n, a)]
  | .all2 n1 a1 n2 a2 _ => [(n1, a1), (n2, a2)]

/-- The output references an attribute list makes, in attribute order. -/
def refsOf (attrs : List (String × AttrVal)) : List (String × String) :=
  (attrs.map (fun p => refsOfVal p.2)).flatten

/-- The output references a descriptor's attributes make, as
(node, attribute) pairs in attribute order. -/
def Descriptor.refs (d : Descriptor) : List (String × String) :=
  refsOf d.attrs

/-- The dependency set of a descriptor: the nodes its attributes
reference, in attribute order. -/
def Descriptor.deps (d : Descriptor) : List String :=
  d.refs.map Prod.fst

/-- The VPC (source lines 6–12). -/
def vpc : Descriptor :=
  ⟨"eks-vpc", "Network",
   [("cidr_block", .lit "10.0.0.0/16"),
    ("instance_tenancy", .lit "default"),
    ("enable_dns_hostnames", .lit "true"),
    ("enable_dns_support", .lit "true"),
    ("tags.Name", .lit "eks-vpc")]⟩

/-- The internet gateway (source lines 15–18). -/
def igw : Descriptor :=
  ⟨"eks-igw", "Gateway",
   [("vpc_id", .ref "eks-vpc" "id"),
    ("tags.Name", .lit "eks-igw")]⟩

/-- First public subnet (source lines 21–27). -/
def public_subnet_1 : Descriptor :=
  ⟨"eks-public-subnet-1", "Subnet",
   [("vpc_id", .ref "eks-vpc" "id"),
    ("cidr_block", .lit "10.0.1.0/24"),
    ("availability_zone", .lit "us-east-1a"),
    ("map_public_ip_on_launch", .lit "true"),
    ("tags.Name", .lit "eks-public-subnet-1")]⟩

/-- Second public subnet (source lines 29–35). -/
def public_subnet_2 : Descriptor :=
  ⟨"eks-public-subnet-2", "Subnet",
   [("vpc_id", .ref "eks-vpc" "id"),
    ("cidr_block", .lit "10.0.2.0/24"),
    ("availability_zone", .lit "us-east-1b"),
    ("map_public_ip_on_launch", .lit "true"),
    ("tags.Name", .lit "eks-public-subnet-2")]⟩

/-- The public route table (source lines 38–45); its single route refers
to the gateway. -/
def public_route_table : Descriptor :=
  ⟨"eks-public-rt", "RouteTable",
   [("vpc_id", .ref "eks-vpc" "id"),
    ("routes.0.cidr_block", .lit "0.0.0.0/0"),
    ("routes.0.gateway_id", .ref "eks-igw" "id"),
    ("tags.Name", .lit "eks-public-rt")]⟩

/-- Route-table association for subnet 1 (source lines 47–50). -/
def eks_rta_1 : Descriptor :=
  ⟨"eks-rta-1", "RouteAssociation",
   [("subnet_id", .ref "eks-public-subnet-1" "id"),
    ("route_table_id", .ref "eks-public-rt" "id")]⟩

/-- Route-table association for subnet 2 (source lines 52–55). -/
def eks_rta_2 : Descriptor :=
  ⟨"eks-rta-2", "RouteAssociation",
   [("subnet_id", .ref "eks-public-subnet-2" "id"),
    ("route_table_id", .ref "eks-public-rt" "id")]⟩

/-- The cluster role (source lines 58–69). -/
def eks_role : Descriptor :=
  ⟨"eks-role", "Role",
   [("assume_role_policy", .lit (renderJson eks_role_trust))]⟩

/-- Attachment of AmazonEKSClusterPolicy to the cluster role (source
lines 71–74). -/
def eks_policy : Descriptor :=
  ⟨"eks-policy", "PolicyAttachment",
   [("role", .ref "eks-role" "name"),
    ("policy_arn", .lit "arn:aws:iam::aws:policy/AmazonEKSClusterPolicy")]⟩

/-- The EKS cluster (source lines 76–83). -/
def eks_cluster : Descriptor :=
  ⟨"eks-cluster", "Cluster",
   [("role_arn", .ref "eks-role" "arn"),
    ("version", .lit "1.24"),
    ("vpc_config.subnet_ids.0", .ref "eks-public-subnet-1" "id"),
    ("vpc_config.subnet_ids.1", .ref "eks-public-subnet-2" "id"),
    ("tags.Name", .lit "eks-cluster")]⟩

/-- The node-group role (source lines 86–97). -/
def node_group_role : Descriptor :=
  ⟨"eks-node-group-role", "Role",
   [("assume_role_policy", .lit (renderJson node_group_role_trust))]⟩

/-- Attachment of AmazonEKSWorkerNodePolicy to the node-group role
(source lines 99–102). -/
def node_group_policy_worker : Descriptor :=
  ⟨"eks-node-group-policy-AmazonEKSWorkerNodePolicy", "PolicyAttachment",
   [("role", .ref "eks-node-group-role" "name"),
    ("policy_arn", .lit "arn:aws:iam::aws:policy/AmazonEKSWorkerNodePolicy")]⟩

/-- Attachment of AmazonEKS_CNI_Policy to the node-group role (source
lines 104–107). -/
def node_group_policy_cni : Descriptor :=
  ⟨"eks-node-group-policy-AmazonEKS_CNI_Policy", "PolicyAttachment",
   [("role", .ref "eks-node-group-role" "name"),
    ("policy_arn", .lit "arn:aws:iam::aws:policy/AmazonEKS_CNI_Policy")]⟩

/-- Attachment of AmazonEC2ContainerRegistryReadOnly to the node-group
role (source lines 109–112). -/
def node_group_policy_registry : Descriptor :=
  ⟨"eks-node-group-policy-AmazonEC2ContainerRegistryReadOnly", "PolicyAttachment",
   [("role", .ref "eks-node-group-role" "name"),
    ("policy_arn", .lit "arn:aws:iam::aws:policy/AmazonEC2ContainerRegistryReadOnly")]⟩

/-- The worker node group (source lines 115–126). -/
def node_group : Descriptor :=
  ⟨"eks-node-group", "NodeGroup",
   [("cluster_name", .ref "eks-cluster" "name"),
    ("node_role_arn", .ref "eks-node-group-role" "arn"),
    ("subnet_ids.0", .ref "eks-public-subnet-1" "id"),
    ("subnet_ids.1", .ref "eks-public-subnet-2" "id"),
    ("scaling_config.desired_size", .lit "2"),
    ("scaling_config.max_size", .lit "2"),
    ("scaling_config.min_size", .lit "1"),
    ("instance_types.0", .lit "t3.medium"),
    ("tags.Name", .lit "eks-node-group")]⟩

/-- The OIDC provider for the cluster (source lines 129–133). -/
def oidc_provider : Descriptor :=
  ⟨"eks-oidc", "OidcProvider",
   [("client_id_lists.0", .lit "sts.amazonaws.com"),
    ("thumbprint_lists.0", .lit "9e99a48a9960b14926bb7f3b02e22da2b0ab7280"),
    ("url", .ref "eks-cluster" "identities.0.oidcs.0.issuer")]⟩

/-- The pod-execution role with IRSA trust (source lines 136–154); its
trust document is computed from the OIDC provider's `url` and `arn`. -/
def pod_role : Descriptor :=
  ⟨"pod-execution-role", "Role",
   [("assume_role_policy", .all2 "eks-oidc" "url" "eks-oidc" "arn" podTrustPolicy)]⟩

/-- Attachment of AmazonEKS_CNI_Policy to the pod-execution role (source
lines 157–160). -/
def pod_execution_role_policy : Descriptor :=
  ⟨"pod-execution-role-policy", "PolicyAttachment",
   [("role", .ref "pod-execution-role" "name"),
    ("policy_arn", .lit "arn:aws:iam::aws:policy/AmazonEKS_CNI_Policy")]⟩

/-- The whole topology of `__main__.py`, in declaration order. -/
def eksTopology : List Descriptor :=
  [vpc, igw, public_subnet_1, public_subnet_2, public_route_table,
   eks_rta_1, eks_rta_2, eks_role, eks_policy, eks_cluster,
   node_group_role, node_group_policy_worker, node_group_policy_cni,
   node_group_policy_registry, node_group, oidc_provider, pod_role,
   pod_execution_role_policy]

/-- The dependency graph of a descriptor list. -/
def toNodes (g : List Descriptor) : List GNode :=
  g.map (fun d => (d.name, d.deps))

/-- The registered exports (source lines 163–167): export name, exporting
descriptor, resolved attribute. -/
def eksExports : List (String × String × String) :=
  [("cluster-name", "eks-cluster", "name"),
   ("cluster endpoint", "eks-cluster", "endpoint"),
   ("cluster certificate authorty", "eks-cluster", "certificate_authority"),
   ("cluster role arn", "eks-role", "arn"),
   ("pod role name", "pod-execution-role", "name")]

/-! ## The apply run (modelled from the spec) -/

/-- Modelled from the spec (§7): the error taxonomy of a run. -/
inductive RunError where
  | duplicateName
  | cycleDetected
  | danglingReference
  | unresolvedDependency (node attr : String)
  | provisioningFailed (node msg : String)
  | missingOutput (node attr : String)
deriving DecidableEq

/-- Modelled from the spec: the ResolvedOutput store — one entry per
applied descriptor, appended at apply time, each holding the attribute
values the collaborator returned. -/
abbrev Store := List (String × List (String × String))

/-- Lookup of one attribute in a returned output list. -/
def lookupAttr (outs : List (String × String)) (attr : String) : Option String :=
  (outs.find? (fun o => o.1 == attr)).map Prod.snd

/-- Lookup of one resolved output attribute in the store. -/
def lookupOut (st : Store) (node attr : String) : Option String :=
  ((st.find? (fun e => e.1 == node)).map Prod.snd).bind
    (fun outs => lookupAttr outs attr)

/-- Modelled from the spec: substitution of one attribute value —
references are replaced by the corresponding ResolvedOutput value and
fail with UnresolvedDependencyError when the dependency has not yet
produced that output. -/
def resolveAttr (st : Store) : AttrVal → Except RunError String
  | .lit v => .ok v
  | .ref n a =>
    match lookupOut st n a with
    | some v => .ok v
    | none => .error (.unresolvedDependency n a)
  | .all2 n1 a1 n2 a2 f =>
    match lookupOut st n1 a1 with
    | none => .error (.unresolvedDependency n1 a1)
    | some v1 =>
      match lookupOut st n2 a2 with
      | none => .error (.unresolvedDependency n2 a2)
      | some v2 => .ok (f v1 v2)

/-- Substitution over a whole attribute list, first failure wins. -/
def resolveAttrs (st : Store) : List (String × AttrVal) → Except RunError (List (String × String))
  | [] => .ok []
  | (k, v) :: rest =>
    match resolveAttr st v with
    | .error e => .error e
    | .ok s =>
      match resolveAttrs st rest with
      | .error e => .error e
      | .ok tl => .ok ((k, s) :: tl)

/-- The external provisioning collaborator: a create/update call takes
the resource name and its resolved attributes and returns either the
resulting output attributes or a failure message. -/
abbrev Collab := String → List (String × String) → Except String (List (String × String))

/-- Modelled from the spec: the applier loop.  Descriptors are processed
in the given order; each one's attributes are substituted from the store,
its create/update call is issued, and on success its outputs are appended
to the store.  The trace records, in order, the names whose calls were
issued; any failure aborts the run with the remaining nodes unstarted. -/
def applyLoop (collab : Collab) : List Descriptor → Store → List String → List String × Store × Option RunError
  | [], st, tr => (tr, st, none)
  | d :: rest, st, tr =>
    match resolveAttrs st d.attrs with
    | .error e => (tr, st, some e)
    | .ok ins =>
      match collab d.name ins with
      | .error msg => (tr ++ [d.name], st, some (.provisioningFailed d.name msg))
      | .ok outs => applyLoop collab rest (st ++ [(d.name, outs)]) (tr ++ [d.name])

/-- Modelled from the spec: OutputExporter.collect — each registration is
resolved against the ResolvedOutput store, failing with
MissingOutputError when the referenced output is absent. -/
def collectExports (st : Store) : List (String × String × String) → Except RunError (List (String × String))
  | [] => .ok []
  | (en, nn, an) :: rest =>
    match lookupOut st nn an with
    | none => .error (.missingOutput nn an)
    | some v =>
      match collectExports st rest with
      | .error e => .error e
      | .ok es => .ok ((en, v) :: es)

/-- The observable outcome of a run: the trace of issued create/update
calls, the final ResolvedOutput store, and either the ExportSet or the
error that aborted the run. -/
structure RunResult where
  trace : List String
  resolved : Store
  result : Except RunError (List (String × String))

/-- Modelled from the spec: one run over an already-ordered descriptor
list — the applier loop followed, on success, by export collection. -/
def runDescs (collab : Collab) (descs : List Descriptor)
    (exps : List (String × String × String)) : RunResult :=
  match applyLoop collab descs [] [] with
  | (tr, st, some e) => ⟨tr, st, .error e⟩
  | (tr, st, none) =>
    match collectExports st exps with
    | .error e => ⟨tr, st, .error e⟩
    | .ok es => ⟨tr, st, .ok es⟩

/-- Modelled from the spec: the whole build-and-apply pipeline.
Registration rejects duplicate names; build rejects a graph whose edges
contain a cycle (detected by the Kahn pass failing to emit every node —
on a finite graph this is exactly the presence of a cycle) and then a
graph with a dangling reference; the applier then runs the nodes in the
computed topological order. -/
def applyGraph (g : List Descriptor) (collab : Collab)
    (exps : List (String × String × String)) : RunResult :=
  if (gnames (toNodes g)).Nodup then
    if (kahn (restrict (toNodes g))).length = (toNodes g).length then
      if ClosedDeps (toNodes g) then
        runDescs collab ((kahn (restrict (toNodes g))).filterMap
          (fun n => g.find? (fun d => d.name == n))) exps
      else ⟨[], [], .error .danglingReference⟩
    else ⟨[], [], .error .cycleDetected⟩
  else ⟨[], [], .error .duplicateName⟩

/-- The collaborator publishes every output attribute that some
descriptor of the graph references: whenever a call for `nm` succeeds,
the returned outputs contain every attribute referenced from `nm`. -/
def CollabAdequate (g : List Descriptor) (collab : Collab) : Prop :=
  ∀ nm ins outs, collab nm ins = .ok outs →
    ∀ d ∈ g, ∀ r ∈ d.refs, r.1 = nm → (lookupAttr outs r.2).isSome = true

/-- Two stores that answer every node lookup identically. -/
def StoreEquiv (s1 s2 : Store) : Prop :=
  ∀ n, (s1.find? (fun e => e.1 == n)).map Prod.snd =
       (s2.find? (fun e => e.1 == n)).map Prod.snd

/-! ## Concrete runs and orders used as witnesses -/

/-- A fixed output list covering every attribute the topology (and its
export registrations) references. -/
def okOuts : List (String × String) :=
  [("id", "i"), ("name", "n"), ("arn", "a"), ("endpoint", "e"),
   ("certificate_authority", "c"), ("url", "u"),
   ("identities.0.oidcs.0.issuer", "s")]

/-- A collaborator that succeeds on every call. -/
def okCollab : Collab := fun _ _ => .ok okOuts

/-- A collaborator that fails exactly on the cluster's create call. -/
def failCollab : Collab := fun n _ =>
  if n == "eks-cluster" then .error "boom" else .ok okOuts

/-- The export set a fully successful `okCollab` run produces. -/
def eksOkExports : List (String × String) :=
  [("cluster-name", "n"), ("cluster endpoint", "e"),
   ("cluster certificate authorty", "c"), ("cluster role arn", "a"),
   ("pod role name", "n")]

/-- A valid apply order that provisions the route table before the second
subnet. -/
def rtFirstOrder : List String :=
  ["eks-vpc", "eks-igw", "eks-public-rt", "eks-public-subnet-1",
   "eks-public-subnet-2", "eks-rta-1", "eks-rta-2", "eks-role", "eks-policy",
   "eks-cluster", "eks-node-group-role",
   "eks-node-group-policy-AmazonEKSWorkerNodePolicy",
   "eks-node-group-policy-AmazonEKS_CNI_Policy",
   "eks-node-group-policy-AmazonEC2ContainerRegistryReadOnly",
   "eks-node-group", "eks-oidc", "pod-execution-role",
   "pod-execution-role-policy"]

/-- A valid apply order that provisions the node group before any of the
three worker-node policy attachments. -/
def ngEarlyOrder : List String :=
  ["eks-vpc", "eks-igw", "eks-public-subnet-1", "eks-public-subnet-2",
   "eks-public-rt", "eks-rta-1", "eks-rta-2", "eks-role", "eks-policy",
   "eks-cluster", "eks-node-group-role", "eks-node-group",
   "eks-node-group-policy-AmazonEKSWorkerNodePolicy",
   "eks-node-group-policy-AmazonEKS_CNI_Policy",
   "eks-node-group-policy-AmazonEC2ContainerRegistryReadOnly",
   "eks-oidc", "pod-execution-role", "pod-execution-role-policy"]

/-- Declaration-order rank of a name in the topology; every dependency
edge of the topology decreases it. -/
def eksRank : String → Nat := fun n => (gnames (toNodes eksTopology)).indexOf n

/-- The topology after the two subnets, shared by the two runs compared
in the completion-order claim. -/
def eksTail : List Descriptor :=
  [public_route_table, eks_rta_1, eks_rta_2, eks_role, eks_policy,
   eks_cluster, node_group_role, node_group_policy_worker,
   node_group_policy_cni, node_group_policy_registry, node_group,
   oidc_provider, pod_role, pod_execution_role_policy]

/-- A two-node graph whose dependency edges form a cycle. -/
def cycNodeA : Descriptor := ⟨"a", "Network", [("x", .ref "b" "id")]⟩

/-- The other half of the cyclic two-node graph. -/
def cycNodeB : Descriptor := ⟨"b", "Network", [("y", .ref "a" "id")]⟩

/-! ## Lemmas about the Kahn ordering -/

lemma selectReady_mem {done : List String} {r : List GNode} {p : GNode}
    (h : selectReady done r = some p) : p ∈ r :=
  List.mem_of_find?_eq_some h

lemma selectReady_deps {done : List String} {r : List GNode} {p : GNode}
    (h : selectReady done r = some p) : ∀ d ∈ p.2, d ∈ done := by
  have hall := List.find?_some h
  rw [List.all_eq_true] at hall
  intro d hd
  have := hall d hd
  simpa [List.contains, List.elem_iff] using this

lemma selectReady_none {done : List String} {r : List GNode}
    (h : selectReady done r = none) : ∀ p ∈ r, ∃ d ∈ p.2, d ∉ done := by
  intro p hp
  have := List.find?_eq_none.mp h p hp
  simpa [List.all_eq_true, List.contains, List.elem_iff] using this

lemma find?_name_eq {ns : List GNode} (hnd : (gnames ns).Nodup) {p : GNode} (hp : p ∈ ns) :
    ns.find? (fun q => q.1 == p.1) = some p := by
  induction ns with
  | nil => cases hp
  | cons q₀ rest ih =>
    rcases List.mem_cons.mp hp with h | h
    · subst h
      simp [List.find?]
    · have hnd' : (gnames rest).Nodup := (List.nodup_cons.mp hnd).2
      have hne : ¬(q₀.1 == p.1) = true := by
        intro hb
        have : q₀.1 = p.1 := by simpa using hb
        have : q₀.1 ∈ gnames rest := by
          rw [this]
          exact List.mem_map_of_mem Prod.fst h
        exact (List.nodup_cons.mp hnd).1 this
      simp only [List.find?]
      rw [Bool.of_not_eq_true hne]
      exact ih hnd' h

lemma depsIn_eq {ns : List GNode} (hnd : (gnames ns).Nodup) {p : GNode} (hp : p ∈ ns) :
    depsIn ns p.1 = p.2 := by
  unfold depsIn
  rw [find?_name_eq hnd hp]
  rfl

lemma depsIn_mem_gnames {ns : List GNode} {a b : String} (h : b ∈ depsIn ns a) :
    a ∈ gnames ns := by
  unfold depsIn at h
  rcases hf : ns.find? (fun q => q.1 == a) with _ | q
  · rw [hf] at h
    cases h
  · have hq : q ∈ ns := List.mem_of_find?_eq_some hf
    have : q.1 = a := by simpa using List.find?_some hf
    rw [← this]
    exact List.mem_map_of_mem Prod.fst hq

lemma depsIn_sub {ns : List GNode} {a b : String} (h : b ∈ depsIn ns a) :
    ∃ p ∈ ns, p.1 = a ∧ b ∈ p.2 := by
  unfold depsIn at h
  rcases hf : ns.find? (fun q => q.1 == a) with _ | q
  · rw [hf] at h
    cases h
  · refine ⟨q, List.mem_of_find?_eq_some hf, by simpa using List.find?_some hf, ?_⟩
    rw [hf] at h
    exact h

/-- A graph admitting a rank function that decreases along every
dependency edge has no cycle. -/
lemma ranked_not_hasCycle (ns : List GNode) (rank : String → Nat)
    (hr : ∀ p ∈ ns, ∀ d ∈ p.2, rank d < rank p.1) : ¬ HasCycle ns := by
  rintro ⟨S, hne, hcl⟩
  obtain ⟨a₀, ha₀⟩ := List.exists_mem_of_ne_nil S hne
  have key : ∀ k a, a ∈ S → rank a < k → False := by
    intro k
    induction k with
    | zero => intro a _ h; omega
    | succ k ih =>
      intro a ha h
      obtain ⟨b, hb, hbS⟩ := hcl a ha
      obtain ⟨p, hp, hpa, hbp⟩ := depsIn_sub hb
      have : rank b < rank a := hpa ▸ hr p hp b hbp
      exact ih b hbS (by omega)
  exact key (rank a₀ + 1) a₀ ha₀ (by omega)

lemma kahnAux_extends :
    ∀ fuel (r : List GNode) (done : List String),
      ∃ t, kahnAux fuel r done = done ++ t ∧ ∀ x ∈ t, x ∈ gnames r := by
  intro fuel
  induction fuel with
  | zero => intro r done; exact ⟨[], by simp [kahnAux]⟩
  | succ fuel ih =>
    intro r done
    rcases hs : selectReady done r with _ | p
    · exact ⟨[], by simp [kahnAux, hs]⟩
    · obtain ⟨t, ht, htm⟩ := ih (r.filter (fun q => q.1 != p.1)) (done ++ [p.1])
      refine ⟨p.1 :: t, ?_, ?_⟩
      · simp only [kahnAux, hs]
        rw [ht]
        simp
      · intro x hx
        rcases List.mem_cons.mp hx with h | h
        · subst h
          exact List.mem_map_of_mem Prod.fst (selectReady_mem hs)
        · have := htm x h
          obtain ⟨q, hq, hqx⟩ := List.mem_map.mp this
          exact hqx ▸ List.mem_map_of_mem Prod.fst (List.mem_of_mem_filter hq)

lemma kahnAux_nodup :
    ∀ fuel (r : List GNode) (done : List String),
      done.Nodup → (∀ p ∈ r, p.1 ∉ done) → (kahnAux fuel r done).Nodup := by
  intro fuel
  induction fuel with
  | zero => intro r done hd _; simpa [kahnAux] using hd
  | succ fuel ih =>
    intro r done hd hfresh
    rcases hs : selectReady done r with _ | p
    · simpa [kahnAux, hs] using hd
    · simp only [kahnAux, hs]
      apply ih
      · simp [List.nodup_append, hd, hfresh p (selectReady_mem hs)]
      · intro q hq
        have hqr := List.mem_of_mem_filter hq
        have hne : q.1 ≠ p.1 := by
          have := List.of_mem_filter hq
          simpa using this
        simp [hfresh q hqr, hne]

lemma kahnAux_depsBefore (ns : List GNode) (hnd : (gnames ns).Nodup) :
    ∀ fuel (r : List GNode) (done : List String),
      (∀ p ∈ r, p ∈ ns) → DepsBefore ns done →
      DepsBefore ns (kahnAux fuel r done) := by
  intro fuel
  induction fuel with
  | zero => intro r done _ hdb; simpa [kahnAux] using hdb
  | succ fuel ih =>
    intro r done hsub hdb
    rcases hs : selectReady done r with _ | p
    · simpa [kahnAux, hs] using hdb
    · simp only [kahnAux, hs]
      apply ih
      · intro q hq
        exact hsub q (List.mem_of_mem_filter hq)
      · -- DepsBefore ns (done ++ [p.1])
        intro i h d hd
        rcases Nat.lt_or_ge i done.length with hi | hi
        · have hget : (done ++ [p.1]).get ⟨i, h⟩ = done.get ⟨i, hi⟩ := by
            simp [List.getElem_append_left hi]
          rw [hget] at hd
          have := hdb i hi d hd
          rwa [List.take_append_of_le_length (Nat.le_of_lt hi)]
        · have hieq : i = done.length := by
            have : i < done.length + 1 := by simpa using h
            omega
          have hget : (done ++ [p.1]).get ⟨i, h⟩ = p.1 := by
            simp [List.get_eq_getElem]
            exact List.getElem_concat_length done p.1 i hieq h
          rw [hget] at hd
          have hdeq : depsIn ns p.1 = p.2 := depsIn_eq hnd (hsub p (selectReady_mem hs))
          rw [hdeq] at hd
          have : d ∈ done := selectReady_deps hs d hd
          rw [hieq, List.take_left]
          exact this

lemma kahnAux_complete (ns : List GNode) (hnd : (gnames ns).Nodup) (hcl : ClosedDeps ns)
    (hac : ¬ HasCycle ns) :
    ∀ fuel (r : List GNode) (done : List String),
      r.length ≤ fuel → (∀ p ∈ r, p ∈ ns) →
      (∀ n ∈ gnames ns, n ∈ done ∨ n ∈ gnames r) →
      ∀ n ∈ gnames ns, n ∈ kahnAux fuel r done := by
  intro fuel
  induction fuel with
  | zero =>
    intro r done hlen _ hcov n hn
    have : r = [] := List.length_eq_zero.mp (Nat.le_zero.mp hlen)
    subst this
    rcases hcov n hn with h | h
    · simpa [kahnAux] using h
    · simp [gnames] at h
  | succ fuel ih =>
    intro r done hlen hsub hcov n hn
    rcases hs : selectReady done r with _ | p
    · -- no ready node: the remaining nodes would form a cycle set
      rcases List.eq_nil_or_concat r with hr | ⟨_, _, hr⟩
      · subst hr
        rcases hcov n hn with h | h
        · simpa [kahnAux, hs] using h
        · simp [gnames] at h
      · exfalso
        apply hac
        refine ⟨gnames r, ?_, ?_⟩
        · subst hr
          simp [gnames]
        · intro a ha
          obtain ⟨p, hp, hpa⟩ := List.mem_map.mp ha
          obtain ⟨d, hd, hdd⟩ := selectReady_none hs p hp
          refine ⟨d, ?_, ?_⟩
          · rw [← hpa, depsIn_eq hnd (hsub p hp)]
            exact hd
          · have hdg : d ∈ gnames ns := hcl p (hsub p hp) d hd
            rcases hcov d hdg with h | h
            · exact absurd h hdd
            · exact h
    · simp only [kahnAux, hs]
      have hpr := selectReady_mem hs
      apply ih
      · have : (r.filter (fun q => q.1 != p.1)).length < r.length := by
          rw [List.length_filter_lt_length_iff_exists]
          exact ⟨p, hpr, by simp⟩
        omega
      · intro q hq
        exact hsub q (List.mem_of_mem_filter hq)
      · intro m hm
        rcases hcov m hm with h | h
        · exact Or.inl (List.mem_append_left _ h)
        · obtain ⟨q, hq, hqm⟩ := List.mem_map.mp h
          by_cases hqp : q.1 = p.1
          · refine Or.inl (List.mem_append_right _ ?_)
            rw [← hqm, hqp]
            exact List.mem_singleton_self _
          · right
            rw [← hqm]
            exact List.mem_map_of_mem Prod.fst (List.mem_filter.mpr ⟨hq, by simpa using hqp⟩)
      · exact hn

lemma kahn_nodup (ns : List GNode) : (kahn ns).Nodup :=
  kahnAux_nodup ns.length ns [] List.nodup_nil (by simp)

lemma kahn_sub (ns : List GNode) : ∀ x ∈ kahn ns, x ∈ gnames ns := by
  obtain ⟨t, ht, htm⟩ := kahnAux_extends ns.length ns []
  intro x hx
  rw [kahn, ht] at hx
  exact htm x (by simpa using hx)

lemma kahn_depsBefore (ns : List GNode) (hnd : (gnames ns).Nodup) :
    DepsBefore ns (kahn ns) :=
  kahnAux_depsBefore ns hnd ns.length ns [] (fun _ hp => hp) (fun i h => by cases h)

lemma kahn_complete (ns : List GNode) (hnd : (gnames ns).Nodup) (hcl : ClosedDeps ns)
    (hac : ¬ HasCycle ns) : ∀ n ∈ gnames ns, n ∈ kahn ns :=
  kahnAux_complete ns hnd hcl hac ns.length ns [] (Nat.le_refl _) (fun _ hp => hp)
    (fun _ hn => Or.inr hn)

lemma kahn_topoOrder (ns : List GNode) (hnd : (gnames ns).Nodup) (hcl : ClosedDeps ns)
    (hac : ¬ HasCycle ns) : TopoOrder ns (kahn ns) :=
  ⟨fun _ h => kahn_complete ns hnd hcl hac _ h, kahn_sub ns, kahn_nodup ns,
   kahn_depsBefore ns hnd⟩

lemma kahn_length (ns : List GNode) (hnd : (gnames ns).Nodup) (hcl : ClosedDeps ns)
    (hac : ¬ HasCycle ns) : (kahn ns).length = ns.length := by
  have h1 : (kahn ns).toFinset = (gnames ns).toFinset := by
    ext x
    simp only [List.mem_toFinset]
    exact ⟨kahn_sub ns x, kahn_complete ns hnd hcl hac x⟩
  have h2 : (kahn ns).toFinset.card = (kahn ns).length :=
    List.toFinset_card_of_nodup (kahn_nodup ns)
  have h3 : (gnames ns).toFinset.card = (gnames ns).length :=
    List.toFinset_card_of_nodup hnd
  have h4 : (gnames ns).length = ns.length := List.length_map ns Prod.fst
  have h1c : (kahn ns).toFinset.card = (gnames ns).toFinset.card := by rw [h1]
  omega

lemma kahnAux_avoids_cycle (ns : List GNode) (hnd : (gnames ns).Nodup)
    {S : List String} (hS : CycleSet ns S) :
    ∀ fuel (r : List GNode) (done : List String),
      (∀ p ∈ r, p ∈ ns) → (∀ s ∈ S, s ∉ done) →
      ∀ s ∈ S, s ∉ kahnAux fuel r done := by
  intro fuel
  induction fuel with
  | zero => intro r done _ hdone s hsS; simpa [kahnAux] using hdone s hsS
  | succ fuel ih =>
    intro r done hsub hdone s hsS
    rcases hs : selectReady done r with _ | p
    · simpa [kahnAux, hs] using hdone s hsS
    · simp only [kahnAux, hs]
      have hpS : p.1 ∉ S := by
        intro hp
        obtain ⟨b, hb, hbS⟩ := hS.2 p.1 hp
        rw [depsIn_eq hnd (hsub p (selectReady_mem hs))] at hb
        exact hdone b hbS (selectReady_deps hs b hb)
      apply ih
      · intro q hq
        exact hsub q (List.mem_of_mem_filter hq)
      · intro x hxS
        simp only [List.mem_append, List.mem_singleton]
        rintro (hx | hx)
        · exact hdone x hxS hx
        · exact hpS (hx ▸ hxS)
      · exact hsS

lemma kahn_misses_cycle (ns : List GNode) (hnd : (gnames ns).Nodup)
    (hc : HasCycle ns) : (kahn ns).length ≠ ns.length := by
  obtain ⟨S, hS⟩ := hc
  obtain ⟨s₀, hs₀⟩ := List.exists_mem_of_ne_nil S hS.1
  have hmiss : s₀ ∉ kahn ns :=
    kahnAux_avoids_cycle ns hnd hS ns.length ns [] (fun _ hp => hp) (by simp) s₀ hs₀
  have hs₀g : s₀ ∈ gnames ns := by
    obtain ⟨b, hb, _⟩ := hS.2 s₀ hs₀
    exact depsIn_mem_gnames hb
  intro hlen
  have hsub : (kahn ns).toFinset ⊆ (gnames ns).toFinset.erase s₀ := by
    intro x hx
    rw [List.mem_toFinset] at hx
    refine Finset.mem_erase.mpr ⟨?_, List.mem_toFinset.mpr (kahn_sub ns x hx)⟩
    intro hxe
    exact hmiss (hxe ▸ hx)
  have hcard : (kahn ns).toFinset.card ≤ (gnames ns).toFinset.card - 1 := by
    have := Finset.card_le_card hsub
    rwa [Finset.card_erase_of_mem (List.mem_toFinset.mpr hs₀g)] at this
  have h2 : (kahn ns).toFinset.card = (kahn ns).length :=
    List.toFinset_card_of_nodup (kahn_nodup ns)
  have h3 : (gnames ns).toFinset.card ≤ (gnames ns).length := List.toFinset_card_le _
  have h4 : (gnames ns).length = ns.length := List.length_map ns Prod.fst
  have h5 : 0 < (gnames ns).toFinset.card :=
    Finset.card_pos.mpr ⟨s₀, List.mem_toFinset.mpr hs₀g⟩
  omega

/-! ## Lemmas about restriction to registered names -/

lemma gnames_restrict (ns : List GNode) : gnames (restrict ns) = gnames ns := by
  simp [gnames, restrict, Function.comp]

lemma restrict_eq_self (ns : List GNode) (hcl : ClosedDeps ns) : restrict ns = ns := by
  unfold restrict
  conv_rhs => rw [← List.map_id ns]
  apply List.map_congr_left
  intro p hp
  have : p.2.filter (fun d => (gnames ns).contains d) = p.2 := by
    rw [List.filter_eq_self]
    intro d hd
    simpa [List.contains, List.elem_iff] using hcl p hp d hd
  rw [this]
  rfl

lemma depsIn_restrict (ns : List GNode) (a : String) :
    depsIn (restrict ns) a = (depsIn ns a).filter (fun d => (gnames ns).contains d) := by
  unfold depsIn restrict
  rw [List.find?_map]
  have hfun : ((fun q : GNode => q.1 == a) ∘
      (fun p : GNode => (p.1, p.2.filter (fun d => (gnames ns).contains d)))) =
      (fun q : GNode => q.1 == a) := funext (fun _ => rfl)
  rw [hfun]
  cases hf : ns.find? (fun q => q.1 == a) with
  | none => rfl
  | some q => rfl

lemma hasCycle_restrict (ns : List GNode) (hc : HasCycle ns) : HasCycle (restrict ns) := by
  obtain ⟨S, hne, hcl⟩ := hc
  refine ⟨S, hne, ?_⟩
  intro a ha
  obtain ⟨b, hb, hbS⟩ := hcl a ha
  refine ⟨b, ?_, hbS⟩
  rw [depsIn_restrict]
  refine List.mem_filter.mpr ⟨hb, ?_⟩
  obtain ⟨c, hc', _⟩ := hcl b hbS
  simpa [List.contains, List.elem_iff] using depsIn_mem_gnames hc'

/-! ## Positions in an apply order -/

lemma indexOf_lt_of_mem_take {l : List String} {b : String} :
    ∀ {i : Nat}, b ∈ l.take i → l.indexOf b < i := by
  induction l with
  | nil => intro i h; simp at h
  | cons x xs ih =>
    intro i h
    cases i with
    | zero => simp at h
    | succ i =>
      rw [List.take_succ_cons, List.mem_cons] at h
      rw [List.indexOf_cons]
      rcases h with h | h
      · subst h
        simp
      · cases hbe : (x == b) with
        | true => simp [hbe]
        | false =>
          simp only [hbe, cond_false]
          exact Nat.succ_lt_succ (ih h)

/-- In any valid apply order, every dependency sits at a strictly
smaller position than its dependent. -/
lemma topoOrder_indexOf {ns : List GNode} {l : List String} (h : TopoOrder ns l) :
    ∀ a b, b ∈ depsIn ns a → a ∈ l → l.indexOf b < l.indexOf a := by
  obtain ⟨_, _, _, hdb⟩ := h
  intro a b hb ha
  have hi : l.indexOf a < l.length := List.indexOf_lt_length.mpr ha
  have hget : l.get ⟨l.indexOf a, hi⟩ = a := List.indexOf_get hi
  have hmem : b ∈ l.take (l.indexOf a) := hdb (l.indexOf a) hi b (by rw [hget]; exact hb)
  exact indexOf_lt_of_mem_take hmem

/-! ## The pipeline's branch structure -/

lemma applyGraph_cycle (g : List Descriptor) (collab : Collab)
    (exps : List (String × String × String))
    (hnd : (gnames (toNodes g)).Nodup) (hc : HasCycle (toNodes g)) :
    applyGraph g collab exps = ⟨[], [], .error .cycleDetected⟩ := by
  have hlen : (kahn (restrict (toNodes g))).length ≠ (toNodes g).length := by
    have h1 := kahn_misses_cycle (restrict (toNodes g))
      (by rw [gnames_restrict]; exact hnd) (hasCycle_restrict _ hc)
    have h2 : (restrict (toNodes g)).length = (toNodes g).length := List.length_map _ _
    omega
  unfold applyGraph
  rw [if_pos hnd, if_neg hlen]

lemma applyGraph_eq_runDescs (g : List Descriptor) (collab : Collab)
    (exps : List (String × String × String))
    (hwf : WellFormed (toNodes g)) (hac : ¬ HasCycle (toNodes g)) :
    applyGraph g collab exps =
      runDescs collab ((kahn (toNodes g)).filterMap
        (fun n => g.find? (fun d => d.name == n))) exps := by
  obtain ⟨hnd, hcl⟩ := hwf
  have hre : restrict (toNodes g) = toNodes g := restrict_eq_self _ hcl
  have hlen : (kahn (restrict (toNodes g))).length = (toNodes g).length := by
    rw [hre]
    exact kahn_length _ hnd hcl hac
  unfold applyGraph
  rw [if_pos hnd, if_pos hlen, if_pos hcl, hre]

/-! ## Lemmas about substitution and the applier loop -/

lemma resolveAttr_error_unresolved {st : Store} {v : AttrVal} {e : RunError}
    (h : resolveAttr st v = .error e) : ∃ n a, e = .unresolvedDependency n a := by
  cases v with
  | lit s => simp [resolveAttr] at h
  | ref n a =>
    simp only [resolveAttr] at h
    cases hl : lookupOut st n a with
    | none =>
      rw [hl] at h
      injection h with h'
      exact ⟨n, a, h'.symm⟩
    | some w =>
      rw [hl] at h
      cases h
  | all2 n1 a1 n2 a2 f =>
    simp only [resolveAttr] at h
    cases hl1 : lookupOut st n1 a1 with
    | none =>
      rw [hl1] at h
      injection h with h'
      exact ⟨n1, a1, h'.symm⟩
    | some v1 =>
      rw [hl1] at h
      cases hl2 : lookupOut st n2 a2 with
      | none =>
        rw [hl2] at h
        injection h with h'
        exact ⟨n2, a2, h'.symm⟩
      | some v2 =>
        rw [hl2] at h
        cases h

lemma resolveAttrs_error_unresolved {st : Store} :
    ∀ {attrs : List (String × AttrVal)} {e : RunError},
      resolveAttrs st attrs = .error e → ∃ n a, e = .unresolvedDependency n a := by
  intro attrs
  induction attrs with
  | nil => intro e h; simp [resolveAttrs] at h
  | cons p rest ih =>
    obtain ⟨k, v⟩ := p
    intro e h
    simp only [resolveAttrs] at h
    cases hra : resolveAttr st v with
    | error e0 =>
      rw [hra] at h
      injection h with h'
      obtain ⟨n, a, he⟩ := resolveAttr_error_unresolved hra
      exact ⟨n, a, h' ▸ he⟩
    | ok s =>
      rw [hra] at h
      cases hrr : resolveAttrs st rest with
      | error e1 =>
        rw [hrr] at h
        injection h with h'
        obtain ⟨n, a, he⟩ := ih hrr
        exact ⟨n, a, h' ▸ he⟩
      | ok tl =>
        rw [hrr] at h
        cases h

lemma collectExports_error_missing {st : Store} :
    ∀ {regs : List (String × String × String)} {e : RunError},
      collectExports st regs = .error e → ∃ n a, e = .missingOutput n a := by
  intro regs
  induction regs with
  | nil => intro e h; simp [collectExports] at h
  | cons p rest ih =>
    obtain ⟨en, nn, an⟩ := p
    intro e h
    simp only [collectExports] at h
    cases hl : lookupOut st nn an with
    | none =>
      rw [hl] at h
      injection h with h'
      exact ⟨nn, an, h'.symm⟩
    | some v =>
      rw [hl] at h
      cases hrr : collectExports st rest with
      | error e1 =>
        rw [hrr] at h
        injection h with h'
        obtain ⟨n, a, he⟩ := ih hrr
        exact ⟨n, a, h' ▸ he⟩
      | ok es =>
        rw [hrr] at h
        cases h

lemma collectExports_ok_spec {st : Store} :
    ∀ {regs : List (String × String × String)} {es : List (String × String)},
      collectExports st regs = .ok es →
      List.Forall₂ (fun (r : String × String × String) (ex : String × String) =>
        ex.1 = r.1 ∧ lookupOut st r.2.1 r.2.2 = some ex.2) regs es := by
  intro regs
  induction regs with
  | nil =>
    intro es h
    simp only [collectExports] at h
    injection h with h'
    rw [← h']
    exact List.Forall₂.nil
  | cons p rest ih =>
    obtain ⟨en, nn, an⟩ := p
    intro es h
    simp only [collectExports] at h
    cases hl : lookupOut st nn an with
    | none =>
      rw [hl] at h
      cases h
    | some v =>
      rw [hl] at h
      cases hrr : collectExports st rest with
      | error e1 =>
        rw [hrr] at h
        cases h
      | ok es0 =>
        rw [hrr] at h
        injection h with h'
        rw [← h']
        exact List.Forall₂.cons ⟨rfl, hl⟩ (ih hrr)

lemma applyLoop_failed_trace (collab : Collab) :
    ∀ (descs : List Descriptor) (st : Store) (tr : List String) (n msg : String),
      (applyLoop collab descs st tr).2.2 = some (.provisioningFailed n msg) →
      ∃ k, ∃ h : k < descs.length, (descs.get ⟨k, h⟩).name = n ∧
        (applyLoop collab descs st tr).1 = tr ++ (descs.take (k + 1)).map Descriptor.name := by
  intro descs
  induction descs with
  | nil => intro st tr n msg h; simp [applyLoop] at h
  | cons d rest ih =>
    intro st tr n msg h
    simp only [applyLoop] at h ⊢
    cases hra : resolveAttrs st d.attrs with
    | error e =>
      rw [hra] at h
      dsimp only at h
      obtain ⟨n', a', he⟩ := resolveAttrs_error_unresolved hra
      rw [he] at h
      injection h with h'
      cases h'
    | ok ins =>
      rw [hra] at h
      dsimp only at h ⊢
      cases hc : collab d.name ins with
      | error m =>
        rw [hc] at h
        dsimp only at h ⊢
        injection h with h'
        injection h' with h1 h2
        refine ⟨0, by simp, h1, ?_⟩
        simp
      | ok outs =>
        rw [hc] at h
        dsimp only at h ⊢
        obtain ⟨k, hk, hname, htr⟩ := ih (st ++ [(d.name, outs)]) (tr ++ [d.name]) n msg h
        refine ⟨k + 1, by simpa using Nat.succ_lt_succ hk, by simpa using hname, ?_⟩
        rw [htr]
        simp [List.take_succ_cons]

/-! ## Reachability of the UnresolvedDependencyError branch -/

lemma lookupOut_append_some {st : Store} {n a v : String} (h : lookupOut st n a = some v)
    (l : Store) : lookupOut (st ++ l) n a = some v := by
  unfold lookupOut at h ⊢
  rw [List.find?_append]
  cases hf : st.find? (fun e => e.1 == n) with
  | none =>
    rw [hf] at h
    cases h
  | some e =>
    rw [hf] at h
    rw [Option.or_some]
    exact h

lemma lookupOut_append_ne {st : Store} {n m : String} (o : List (String × String))
    (h : n ≠ m) (a : String) : lookupOut (st ++ [(m, o)]) n a = lookupOut st n a := by
  unfold lookupOut
  rw [List.find?_append]
  have hb : (m == n) = false := by
    rw [beq_eq_false_iff_ne]
    exact Ne.symm h
  have : List.find? (fun e => e.1 == n) [(m, o)] = none := by
    simp [List.find?, hb]
  rw [this, Option.or_none]

lemma lookupOut_append_fresh {st : Store} {m : String} (o : List (String × String))
    (h : ∀ e ∈ st, e.1 ≠ m) (a : String) :
    lookupOut (st ++ [(m, o)]) m a = lookupAttr o a := by
  unfold lookupOut
  rw [List.find?_append]
  have hnone : st.find? (fun e => e.1 == m) = none := by
    rw [List.find?_eq_none]
    intro e he
    simpa using h e he
  rw [hnone]
  simp [List.find?]

lemma resolveAttr_ok_of_refs {st : Store} {v : AttrVal}
    (h : ∀ r ∈ refsOfVal v, (lookupOut st r.1 r.2).isSome = true) :
    ∃ s, resolveAttr st v = .ok s := by
  cases v with
  | lit s => exact ⟨s, rfl⟩
  | ref n a =>
    obtain ⟨w, hw⟩ := Option.isSome_iff_exists.mp (h (n, a) (List.mem_singleton_self _))
    exact ⟨w, by simp [resolveAttr, hw]⟩
  | all2 n1 a1 n2 a2 f =>
    obtain ⟨w1, hw1⟩ := Option.isSome_iff_exists.mp
      (h (n1, a1) (by simp [refsOfVal]))
    obtain ⟨w2, hw2⟩ := Option.isSome_iff_exists.mp
      (h (n2, a2) (by simp [refsOfVal]))
    exact ⟨f w1 w2, by simp [resolveAttr, hw1, hw2]⟩

lemma refsOf_cons (p : String × AttrVal) (rest : List (String × AttrVal)) :
    refsOf (p :: rest) = refsOfVal p.2 ++ refsOf rest := by
  simp [refsOf]

lemma resolveAttrs_ok_of_refs {st : Store} :
    ∀ {attrs : List (String × AttrVal)},
      (∀ r ∈ refsOf attrs, (lookupOut st r.1 r.2).isSome = true) →
      ∃ ins, resolveAttrs st attrs = .ok ins := by
  intro attrs
  induction attrs with
  | nil => intro _; exact ⟨[], rfl⟩
  | cons p rest ih =>
    intro h
    rw [refsOf_cons] at h
    obtain ⟨s, hs⟩ := resolveAttr_ok_of_refs
      (fun r hr => h r (List.mem_append_left _ hr))
    obtain ⟨tl, htl⟩ := ih (fun r hr => h r (List.mem_append_right _ hr))
    obtain ⟨k, v⟩ := p
    exact ⟨(k, s) :: tl, by simp [resolveAttrs, hs, htl]⟩

lemma applyLoop_no_unresolved {g : List Descriptor} {collab : Collab}
    (hadq : CollabAdequate g collab) :
    ∀ (descs : List Descriptor) (st : Store) (tr : List String),
      (∀ d ∈ descs, d ∈ g) →
      (descs.map Descriptor.name).Nodup →
      (∀ d ∈ descs, ∀ e ∈ st, e.1 ≠ d.name) →
      (∀ i (hi : i < descs.length), ∀ r ∈ (descs.get ⟨i, hi⟩).refs,
        (lookupOut st r.1 r.2).isSome = true ∨ r.1 ∈ (descs.take i).map Descriptor.name) →
      ∀ n a, (applyLoop collab descs st tr).2.2 ≠ some (.unresolvedDependency n a) := by
  intro descs
  induction descs with
  | nil => intro st tr _ _ _ _ n a h; simp [applyLoop] at h
  | cons d rest ih =>
    intro st tr hsub hnd hfresh hinv n a
    simp only [applyLoop]
    have hres : ∃ ins, resolveAttrs st d.attrs = .ok ins := by
      apply resolveAttrs_ok_of_refs
      intro r hr
      rcases hinv 0 (by simp) r hr with h | h
      · exact h
      · simp at h
    obtain ⟨ins, hins⟩ := hres
    rw [hins]
    dsimp only
    cases hc : collab d.name ins with
    | error m =>
      dsimp only
      intro h
      injection h with h'
      cases h'
    | ok outs =>
      dsimp only
      apply ih
      · exact fun d' hd' => hsub d' (List.mem_cons_of_mem d hd')
      · exact (List.nodup_cons.mp (by simpa using hnd)).2
      · intro d' hd' e he
        rcases List.mem_append.mp he with he | he
        · exact hfresh d' (List.mem_cons_of_mem d hd') e he
        · have heq : e = (d.name, outs) := List.mem_singleton.mp he
          rw [heq]
          intro hcon
          have hcon' : d.name = d'.name := hcon
          have : d.name ∈ rest.map Descriptor.name := by
            rw [hcon']
            exact List.mem_map_of_mem Descriptor.name hd'
          exact (List.nodup_cons.mp (by simpa using hnd)).1 this
      · intro i hi r hr
        have hi' : i + 1 < (d :: rest).length := by simpa using Nat.succ_lt_succ hi
        have hget : ((d :: rest).get ⟨i + 1, hi'⟩) = rest.get ⟨i, hi⟩ := rfl
        rcases hinv (i + 1) hi' r (by rw [hget]; exact hr) with h | h
        · left
          obtain ⟨v, hv⟩ := Option.isSome_iff_exists.mp h
          exact Option.isSome_iff_exists.mpr ⟨v, lookupOut_append_some hv _⟩
        · rw [List.take_succ_cons] at h
          simp only [List.map_cons, List.mem_cons] at h
          rcases h with h | h
          · left
            rw [h, lookupOut_append_fresh outs (hfresh d (List.mem_cons_self d rest))]
            exact hadq d.name ins outs hc (rest.get ⟨i, hi⟩)
              (hsub _ (List.mem_cons_of_mem d (rest.get_mem i hi))) r hr h
          · right
            exact h

/-! ## The ordered descriptor list of a pipeline run -/

lemma gnames_toNodes (g : List Descriptor) :
    gnames (toNodes g) = g.map Descriptor.name := by
  simp [gnames, toNodes, Function.comp]

lemma filterMap_find_matches (g : List Descriptor) :
    ∀ (l : List String), (∀ n ∈ l, n ∈ gnames (toNodes g)) →
      ((l.filterMap (fun n => g.find? (fun d => d.name == n))).map Descriptor.name = l ∧
       ∀ d ∈ l.filterMap (fun n => g.find? (fun d => d.name == n)), d ∈ g) := by
  intro l
  induction l with
  | nil => intro _; exact ⟨rfl, by simp⟩
  | cons n l' ih =>
    intro hmem
    have hn : n ∈ gnames (toNodes g) := hmem n (List.mem_cons_self n l')
    have hex : ∃ d ∈ g, (fun d : Descriptor => d.name == n) d = true := by
      rw [gnames_toNodes] at hn
      obtain ⟨d, hd, hdn⟩ := List.mem_map.mp hn
      exact ⟨d, hd, by simp [hdn]⟩
    obtain ⟨d₀, hfind⟩ := Option.isSome_iff_exists.mp (List.find?_isSome.mpr hex)
    obtain ⟨htl, hsub⟩ := ih (fun m hm => hmem m (List.mem_cons_of_mem n hm))
    rw [List.filterMap_cons, hfind]
    constructor
    · dsimp only
      rw [List.map_cons, htl]
      have hdn : d₀.name = n := by simpa using List.find?_some hfind
      rw [hdn]
    · intro d hd
      dsimp only at hd
      rcases List.mem_cons.mp hd with h | h
      · rw [h]
        exact List.mem_of_find?_eq_some hfind
      · exact hsub d h

lemma depsIn_toNodes (g : List Descriptor) (hnd : (gnames (toNodes g)).Nodup)
    {d : Descriptor} (hd : d ∈ g) : depsIn (toNodes g) d.name = d.deps := by
  have hp : ((d.name, d.deps) : GNode) ∈ toNodes g :=
    List.mem_map_of_mem (fun d => (d.name, d.deps)) hd
  exact depsIn_eq hnd hp

lemma runDescs_result_unresolved {collab : Collab} {descs : List Descriptor}
    {exps : List (String × String × String)} {n a : String}
    (h : (runDescs collab descs exps).result = .error (.unresolvedDependency n a)) :
    (applyLoop collab descs [] []).2.2 = some (.unresolvedDependency n a) := by
  unfold runDescs at h
  rcases happ : applyLoop collab descs [] [] with ⟨tr, ste⟩
  rcases ste with ⟨st, err⟩
  rw [happ] at h
  cases err with
  | some e =>
    dsimp only at h ⊢
    injection h with h'
    rw [h']
  | none =>
    dsimp only at h
    cases hcol : collectExports st exps with
    | error e =>
      rw [hcol] at h
      dsimp only at h
      injection h with h'
      obtain ⟨n', a', he⟩ := collectExports_error_missing hcol
      rw [he] at h'
      cases h'
    | ok es =>
      rw [hcol] at h
      dsimp only at h
      cases h

/-! ## Completion order of independent nodes -/

lemma storeEquiv_self (s : Store) : StoreEquiv s s := fun _ => rfl

lemma lookupOut_congr {s1 s2 : Store} (h : StoreEquiv s1 s2) (n a : String) :
    lookupOut s1 n a = lookupOut s2 n a := by
  unfold lookupOut
  rw [h n]

lemma resolveAttr_congr {s1 s2 : Store} (h : StoreEquiv s1 s2) (v : AttrVal) :
    resolveAttr s1 v = resolveAttr s2 v := by
  cases v with
  | lit s => rfl
  | ref n a => simp [resolveAttr, lookupOut_congr h]
  | all2 n1 a1 n2 a2 f => simp [resolveAttr, lookupOut_congr h]

lemma resolveAttrs_congr {s1 s2 : Store} (h : StoreEquiv s1 s2) :
    ∀ attrs, resolveAttrs s1 attrs = resolveAttrs s2 attrs := by
  intro attrs
  induction attrs with
  | nil => rfl
  | cons p rest ih =>
    obtain ⟨k, v⟩ := p
    simp only [resolveAttrs, resolveAttr_congr h, ih]

lemma storeEquiv_append {s1 s2 : Store} (h : StoreEquiv s1 s2)
    (e : String × List (String × String)) : StoreEquiv (s1 ++ [e]) (s2 ++ [e]) := by
  intro n
  rw [List.find?_append, List.find?_append]
  cases h1 : s1.find? (fun x => x.1 == n) with
  | some y =>
    have h2 := h n
    rw [h1] at h2
    cases h2' : s2.find? (fun x => x.1 == n) with
    | none =>
      rw [h2'] at h2
      cases h2
    | some y' =>
      rw [h2'] at h2
      rw [Option.or_some, Option.or_some]
      exact h2
  | none =>
    have h2 := h n
    rw [h1] at h2
    cases h2' : s2.find? (fun x => x.1 == n) with
    | some y' =>
      rw [h2'] at h2
      cases h2
    | none => rfl

lemma collectExports_congr {s1 s2 : Store} (h : StoreEquiv s1 s2) :
    ∀ regs, collectExports s1 regs = collectExports s2 regs := by
  intro regs
  induction regs with
  | nil => rfl
  | cons p rest ih =>
    obtain ⟨en, nn, an⟩ := p
    simp only [collectExports, lookupOut_congr h, ih]

lemma applyLoop_congr (collab : Collab) :
    ∀ (descs : List Descriptor) (s1 s2 : Store) (tr1 tr2 : List String),
      StoreEquiv s1 s2 →
      ((applyLoop collab descs s1 tr1).2.2 = (applyLoop collab descs s2 tr2).2.2 ∧
       StoreEquiv (applyLoop collab descs s1 tr1).2.1 (applyLoop collab descs s2 tr2).2.1) := by
  intro descs
  induction descs with
  | nil => intro s1 s2 tr1 tr2 h; exact ⟨rfl, h⟩
  | cons d rest ih =>
    intro s1 s2 tr1 tr2 h
    simp only [applyLoop]
    have hra : resolveAttrs s2 d.attrs = resolveAttrs s1 d.attrs :=
      (resolveAttrs_congr h d.attrs).symm
    cases hres : resolveAttrs s1 d.attrs with
    | error e =>
      rw [hres] at hra
      rw [hra]
      exact ⟨rfl, h⟩
    | ok ins =>
      rw [hres] at hra
      rw [hra]
      dsimp only
      cases hc : collab d.name ins with
      | error m => exact ⟨rfl, h⟩
      | ok outs =>
        dsimp only
        exact ih (s1 ++ [(d.name, outs)]) (s2 ++ [(d.name, outs)]) _ _
          (storeEquiv_append h _)

lemma storeEquiv_swap (st : Store) {m1 m2 : String}
    (o1 o2 : List (String × String)) (hne : m1 ≠ m2) :
    StoreEquiv ((st ++ [(m1, o1)]) ++ [(m2, o2)]) ((st ++ [(m2, o2)]) ++ [(m1, o1)]) := by
  intro n
  rw [List.find?_append, List.find?_append, List.find?_append, List.find?_append]
  cases h1 : st.find? (fun x => x.1 == n) with
  | some y => rfl
  | none =>
    by_cases hm1 : m1 = n
    · have b1 : (m1 == n) = true := by simp [hm1]
      have b2 : (m2 == n) = false := by
        rw [beq_eq_false_iff_ne]
        rw [← hm1]
        exact Ne.symm hne
      simp [List.find?, b1, b2]
    · have b1 : (m1 == n) = false := by
        rw [beq_eq_false_iff_ne]
        exact hm1
      by_cases hm2 : m2 = n
      · have b2 : (m2 == n) = true := by simp [hm2]
        simp [List.find?, b1, b2]
      · have b2 : (m2 == n) = false := by
          rw [beq_eq_false_iff_ne]
          exact hm2
        simp [List.find?, b1, b2]

lemma resolveAttr_append_ne {st : Store} {m : String} (o : List (String × String))
    {v : AttrVal} (hv : ∀ r ∈ refsOfVal v, r.1 ≠ m) :
    resolveAttr (st ++ [(m, o)]) v = resolveAttr st v := by
  cases v with
  | lit s => rfl
  | ref n a =>
    have : n ≠ m := hv (n, a) (List.mem_singleton_self _)
    simp [resolveAttr, lookupOut_append_ne o this]
  | all2 n1 a1 n2 a2 f =>
    have h1 : n1 ≠ m := hv (n1, a1) (by simp [refsOfVal])
    have h2 : n2 ≠ m := hv (n2, a2) (by simp [refsOfVal])
    simp [resolveAttr, lookupOut_append_ne o h1, lookupOut_append_ne o h2]

lemma resolveAttrs_append_ne {st : Store} {m : String} (o : List (String × String)) :
    ∀ {attrs : List (String × AttrVal)}, (∀ r ∈ refsOf attrs, r.1 ≠ m) →
      resolveAttrs (st ++ [(m, o)]) attrs = resolveAttrs st attrs := by
  intro attrs
  induction attrs with
  | nil => intro _; rfl
  | cons p rest ih =>
    intro hv
    rw [refsOf_cons] at hv
    obtain ⟨k, v⟩ := p
    have hval : resolveAttr (st ++ [(m, o)]) v = resolveAttr st v :=
      resolveAttr_append_ne o (fun r hr => hv r (List.mem_append_left _ hr))
    have hrest := ih (fun r hr => hv r (List.mem_append_right _ hr))
    simp only [resolveAttrs, hval, hrest]

lemma refs_fst_mem_deps {d : Descriptor} {r : String × String} (hr : r ∈ d.refs) :
    r.1 ∈ d.deps :=
  List.mem_map_of_mem Prod.fst hr

lemma applyLoop_swap (collab : Collab) (d1 d2 : Descriptor) (rest : List Descriptor)
    (st : Store) (tr1 tr2 : List String)
    (h12 : d2.name ∉ d1.deps) (h21 : d1.name ∉ d2.deps) (hne : d1.name ≠ d2.name)
    (hsucc : (applyLoop collab (d1 :: d2 :: rest) st tr1).2.2 = none) :
    (applyLoop collab (d2 :: d1 :: rest) st tr2).2.2 = none ∧
    StoreEquiv (applyLoop collab (d1 :: d2 :: rest) st tr1).2.1
      (applyLoop collab (d2 :: d1 :: rest) st tr2).2.1 := by
  simp only [applyLoop] at hsucc ⊢
  cases hr1 : resolveAttrs st d1.attrs with
  | error e =>
    rw [hr1] at hsucc
    cases hsucc
  | ok ins1 =>
    rw [hr1] at hsucc
    dsimp only at hsucc
    cases hc1 : collab d1.name ins1 with
    | error m =>
      rw [hc1] at hsucc
      cases hsucc
    | ok o1 =>
      rw [hc1] at hsucc
      dsimp only at hsucc
      have hd2shift : resolveAttrs (st ++ [(d1.name, o1)]) d2.attrs = resolveAttrs st d2.attrs := by
        apply resolveAttrs_append_ne
        intro r hr
        intro hcon
        exact h21 (hcon ▸ refs_fst_mem_deps hr)
      cases hr2 : resolveAttrs st d2.attrs with
      | error e =>
        rw [hd2shift, hr2] at hsucc
        cases hsucc
      | ok ins2 =>
        rw [hd2shift, hr2] at hsucc
        dsimp only at hsucc
        cases hc2 : collab d2.name ins2 with
        | error m =>
          rw [hc2] at hsucc
          cases hsucc
        | ok o2 =>
          rw [hc2] at hsucc
          dsimp only at hsucc
          have hd1shift : resolveAttrs (st ++ [(d2.name, o2)]) d1.attrs
              = resolveAttrs st d1.attrs := by
            apply resolveAttrs_append_ne
            intro r hr
            intro hcon
            exact h12 (hcon ▸ refs_fst_mem_deps hr)
          simp only [hd1shift, hd2shift, hr1, hr2, hc1, hc2]
          have hsw := storeEquiv_swap st o1 o2 hne
          obtain ⟨herr, hstv⟩ := applyLoop_congr collab rest
            ((st ++ [(d1.name, o1)]) ++ [(d2.name, o2)])
            ((st ++ [(d2.name, o2)]) ++ [(d1.name, o1)])
            ((tr1 ++ [d1.name]) ++ [d2.name]) ((tr2 ++ [d2.name]) ++ [d1.name]) hsw
          constructor
          · rw [← herr]
            exact hsucc
          · exact hstv

lemma applyLoop_append (collab : Collab) :
    ∀ (l1 l2 : List Descriptor) (st : Store) (tr : List String),
      applyLoop collab (l1 ++ l2) st tr =
        (match applyLoop collab l1 st tr with
         | (tr', st', none) => applyLoop collab l2 st' tr'
         | (tr', st', some e) => (tr', st', some e)) := by
  intro l1
  induction l1 with
  | nil => intro l2 st tr; rfl
  | cons d rest ih =>
    intro l2 st tr
    simp only [List.cons_append, applyLoop]
    cases resolveAttrs st d.attrs with
    | error e => rfl
    | ok ins =>
      dsimp only
      cases collab d.name ins with
      | error m => rfl
      | ok outs => exact ih l2 _ _

lemma runDescs_ok {collab : Collab} {descs : List Descriptor}
    {exps : List (String × String × String)} {es : List (String × String)}
    (h : (runDescs collab descs exps).result = .ok es) :
    (applyLoop collab descs [] []).2.2 = none ∧
    collectExports (applyLoop collab descs [] []).2.1 exps = .ok es := by
  unfold runDescs at h
  rcases happ : applyLoop collab descs [] [] with ⟨tr, ste⟩
  rcases ste with ⟨st, err⟩
  rw [happ] at h
  cases err with
  | some e =>
    dsimp only at h
    cases h
  | none =>
    dsimp only at h
    cases hcol : collectExports st exps with
    | error e =>
      rw [hcol] at h
      dsimp only at h
      cases h
    | ok es0 =>
      rw [hcol] at h
      dsimp only at h
      injection h with h'
      exact ⟨rfl, by rw [h']⟩

lemma applyGraph_eks (collab : Collab) (exps : List (String × String × String)) :
    applyGraph eksTopology collab exps = runDescs collab eksTopology exps := rfl

lemma eksTopology_not_hasCycle : ¬ HasCycle (toNodes eksTopology) :=
  ranked_not_hasCycle _ eksRank (by decide)

/-! ## The claims -/

/-- C1: for every graph satisfying the data-model invariants (unique
names, no dangling reference) and containing no cycle, the order the
topological applier computes contains every node and places every node
after all of its dependencies: for every dependency edge (a → b), the
position of b in the order is strictly smaller than the position of a. -/
theorem kahn_places_deps_before (ns : List GNode)
    (hwf : WellFormed ns) (hac : ¬ HasCycle ns) :
    (∀ n ∈ gnames ns, n ∈ kahn ns) ∧
    (∀ a b, b ∈ depsIn ns a → a ∈ gnames ns →
      (kahn ns).indexOf b < (kahn ns).indexOf a) := by
  have htopo := kahn_topoOrder ns hwf.1 hwf.2 hac
  exact ⟨fun _ hn => htopo.1 hn,
    fun a b hb ha => topoOrder_indexOf htopo a b hb (htopo.1 ha)⟩

/-- Witness for C1 at the fixed topology: the gateway is placed in the
computed order, after the VPC it depends on. -/
theorem kahn_places_deps_before_witness :
    "eks-igw" ∈ kahn (toNodes eksTopology) ∧
    (kahn (toNodes eksTopology)).indexOf "eks-vpc" <
      (kahn (toNodes eksTopology)).indexOf "eks-igw" := by
  have h := kahn_places_deps_before (toNodes eksTopology) (by decide)
    eksTopology_not_hasCycle
  exact ⟨h.1 "eks-igw" (by decide), h.2 "eks-igw" "eks-vpc" (by decide) (by decide)⟩

/-- C2 counterexample: the dependency edges are not exactly as the claim
lists them.  The route table does not depend on either subnet (so the
claimed "Subnets before the RouteTable" edges do not exist), the node
group depends on the node-group role (an edge the claim omits), and
`rtFirstOrder` is a valid apply order that provisions the route table
before the second subnet, violating the claimed precedence. -/
theorem eks_edges_not_as_listed :
    ("eks-public-subnet-1" ∉ depsIn (toNodes eksTopology) "eks-public-rt") ∧
    ("eks-public-subnet-2" ∉ depsIn (toNodes eksTopology) "eks-public-rt") ∧
    ("eks-node-group-role" ∈ depsIn (toNodes eksTopology) "eks-node-group") ∧
    TopoOrder (toNodes eksTopology) rtFirstOrder ∧
    rtFirstOrder.indexOf "eks-public-rt" <
      rtFirstOrder.indexOf "eks-public-subnet-2" := by
  decide

/-- C2 (amended): the dependency edges of the fixed topology are exactly
the ones implied by the attribute references — Network before Gateway,
Subnets and RouteTable; Gateway before RouteTable; each Subnet and the
RouteTable before its RouteAssociation; each Role before its
PolicyAttachment; cluster Role and Subnets before Cluster; Cluster,
node-group Role and Subnets before NodeGroup; Cluster before
OidcProvider; OidcProvider before the federated-trust Role; that Role
before its PolicyAttachment — and every valid apply order satisfies
every one of these precedences. -/
theorem eks_edges_exact (order : List String)
    (h : TopoOrder (toNodes eksTopology) order) :
    (depsIn (toNodes eksTopology) "eks-vpc" = [] ∧
     depsIn (toNodes eksTopology) "eks-igw" = ["eks-vpc"] ∧
     depsIn (toNodes eksTopology) "eks-public-subnet-1" = ["eks-vpc"] ∧
     depsIn (toNodes eksTopology) "eks-public-subnet-2" = ["eks-vpc"] ∧
     depsIn (toNodes eksTopology) "eks-public-rt" = ["eks-vpc", "eks-igw"] ∧
     depsIn (toNodes eksTopology) "eks-rta-1" =
       ["eks-public-subnet-1", "eks-public-rt"] ∧
     depsIn (toNodes eksTopology) "eks-rta-2" =
       ["eks-public-subnet-2", "eks-public-rt"] ∧
     depsIn (toNodes eksTopology) "eks-role" = [] ∧
     depsIn (toNodes eksTopology) "eks-policy" = ["eks-role"] ∧
     depsIn (toNodes eksTopology) "eks-cluster" =
       ["eks-role", "eks-public-subnet-1", "eks-public-subnet-2"] ∧
     depsIn (toNodes eksTopology) "eks-node-group-role" = [] ∧
     depsIn (toNodes eksTopology) "eks-node-group-policy-AmazonEKSWorkerNodePolicy" =
       ["eks-node-group-role"] ∧
     depsIn (toNodes eksTopology) "eks-node-group-policy-AmazonEKS_CNI_Policy" =
       ["eks-node-group-role"] ∧
     depsIn (toNodes eksTopology) "eks-node-group-policy-AmazonEC2ContainerRegistryReadOnly" =
       ["eks-node-group-role"] ∧
     depsIn (toNodes eksTopology) "eks-node-group" =
       ["eks-cluster", "eks-node-group-role", "eks-public-subnet-1",
        "eks-public-subnet-2"] ∧
     depsIn (toNodes eksTopology) "eks-oidc" = ["eks-cluster"] ∧
     depsIn (toNodes eksTopology) "pod-execution-role" = ["eks-oidc", "eks-oidc"] ∧
     depsIn (toNodes eksTopology) "pod-execution-role-policy" =
       ["pod-execution-role"]) ∧
    (∀ a b, b ∈ depsIn (toNodes eksTopology) a → a ∈ order →
      order.indexOf b < order.indexOf a) :=
  ⟨by decide, fun a b hb ha => topoOrder_indexOf h a b hb ha⟩

/-- Witness for C2 (amended) at the declaration order, which is a valid
apply order: the cluster role precedes the cluster. -/
theorem eks_edges_exact_witness :
    TopoOrder (toNodes eksTopology) (gnames (toNodes eksTopology)) ∧
    (gnames (toNodes eksTopology)).indexOf "eks-role" <
      (gnames (toNodes eksTopology)).indexOf "eks-cluster" := by
  refine ⟨by decide, ?_⟩
  exact (eks_edges_exact _ (by decide)).2 "eks-cluster" "eks-role" (by decide) (by decide)

/-- C3: a graph whose dependency edges contain a cycle is rejected with
CycleDetectedError before any create/update call is issued — the trace
and the store of the run are both empty.  (Unique names are the data
model's registration invariant; a duplicate name is rejected even
earlier, at registration.) -/
theorem cyclic_input_rejected (g : List Descriptor) (collab : Collab)
    (exps : List (String × String × String))
    (hnd : (gnames (toNodes g)).Nodup) (hc : HasCycle (toNodes g)) :
    applyGraph g collab exps = ⟨[], [], .error .cycleDetected⟩ :=
  applyGraph_cycle g collab exps hnd hc

/-- Witness for C3: the two-node cyclic graph is rejected with an empty
trace. -/
theorem cyclic_input_rejected_witness :
    applyGraph [cycNodeA, cycNodeB] okCollab [] = ⟨[], [], .error .cycleDetected⟩ :=
  cyclic_input_rejected [cycNodeA, cycNodeB] okCollab [] (by decide)
    ⟨["a", "b"], by decide⟩

/-- C6: the computed apply order of the fixed topology places the
Network (VPC) node first and the pod-execution Role's PolicyAttachment
node last. -/
theorem eks_order_first_last :
    (kahn (restrict (toNodes eksTopology))).head? = some "eks-vpc" ∧
    (kahn (restrict (toNodes eksTopology))).getLast? =
      some "pod-execution-role-policy" := by
  decide

/-- C9: the NodeGroup descriptor depends exactly on the Cluster, the
node-group Role and the two Subnets — none of the three worker-node
policy attachments is among its dependencies — and `ngEarlyOrder` is a
valid apply order that provisions the node group before all three
attachments. -/
theorem node_group_deps_exclude_attachments :
    node_group.deps = ["eks-cluster", "eks-node-group-role",
      "eks-public-subnet-1", "eks-public-subnet-2"] ∧
    "eks-node-group-policy-AmazonEKSWorkerNodePolicy" ∉ node_group.deps ∧
    "eks-node-group-policy-AmazonEKS_CNI_Policy" ∉ node_group.deps ∧
    "eks-node-group-policy-AmazonEC2ContainerRegistryReadOnly" ∉ node_group.deps ∧
    TopoOrder (toNodes eksTopology) ngEarlyOrder ∧
    ngEarlyOrder.indexOf "eks-node-group" <
      ngEarlyOrder.indexOf "eks-node-group-policy-AmazonEKSWorkerNodePolicy" ∧
    ngEarlyOrder.indexOf "eks-node-group" <
      ngEarlyOrder.indexOf "eks-node-group-policy-AmazonEKS_CNI_Policy" ∧
    ngEarlyOrder.indexOf "eks-node-group" <
      ngEarlyOrder.indexOf "eks-node-group-policy-AmazonEC2ContainerRegistryReadOnly" := by
  decide

/-- C10: the pod-execution Role's trust document is the rendering of a
JSON policy computed purely from the OIDC provider's (url, arn): for all
input strings, its Version is "2012-10-17" and its single statement has
Effect "Allow", Principal.Federated equal to the arn, Action
"sts:AssumeRoleWithWebIdentity", and a StringEquals condition keyed by
the url concatenated with ":sub" whose value is
"system:serviceaccount:default:example-sa". -/
theorem pod_trust_policy_exact (url arn : String) :
    podTrustPolicy url arn = renderJson (podTrustJson url arn) ∧
    (podTrustJson url arn).lookup "Version" = some (.str "2012-10-17") ∧
    ∃ stmt, (podTrustJson url arn).lookup "Statement" = some (.arr [stmt]) ∧
      stmt.lookup "Effect" = some (.str "Allow") ∧
      stmt.lookup "Principal" = some (.obj [("Federated", .str arn)]) ∧
      stmt.lookup "Action" = some (.str "sts:AssumeRoleWithWebIdentity") ∧
      stmt.lookup "Condition" = some (.obj [("StringEquals",
        .obj [(url ++ ":sub", .str "system:serviceaccount:default:example-sa")])]) :=
  ⟨rfl, rfl, _, rfl, rfl, rfl, rfl, rfl⟩

/-- C4: in every run on the fixed topology in which the Cluster node's
create/update call fails, the NodeGroup and OidcProvider calls are never
issued, and in general no node that depends on the cluster is ever
attempted — the trace of issued calls excludes every dependent of the
failed node. -/
theorem cluster_failure_aborts_dependents (collab : Collab) (msg : String)
    (h : (applyGraph eksTopology collab eksExports).result =
      .error (.provisioningFailed "eks-cluster" msg)) :
    "eks-node-group" ∉ (applyGraph eksTopology collab eksExports).trace ∧
    "eks-oidc" ∉ (applyGraph eksTopology collab eksExports).trace ∧
    ∀ m, "eks-cluster" ∈ depsIn (toNodes eksTopology) m →
      m ∉ (applyGraph eksTopology collab eksExports).trace := by
  rw [applyGraph_eks] at h ⊢
  unfold runDescs at h ⊢
  rcases happ : applyLoop collab eksTopology [] [] with ⟨tr, ste⟩
  rcases ste with ⟨st, err⟩
  rw [happ] at h
  cases err with
  | none =>
    dsimp only at h
    cases hcol : collectExports st eksExports with
    | error e =>
      rw [hcol] at h
      dsimp only at h
      injection h with h'
      obtain ⟨n', a', he⟩ := collectExports_error_missing hcol
      rw [he] at h'
      cases h'
    | ok es =>
      rw [hcol] at h
      dsimp only at h
      cases h
  | some e =>
    dsimp only at h ⊢
    injection h with h'
    have hfail : (applyLoop collab eksTopology [] []).2.2 =
        some (.provisioningFailed "eks-cluster" msg) := by
      rw [happ]
      dsimp only
      rw [h']
    obtain ⟨k, hk, hname, htr⟩ :=
      applyLoop_failed_trace collab eksTopology [] [] "eks-cluster" msg hfail
    have hk9 : k = 9 := by
      have hdec : ∀ k' (hk' : k' < eksTopology.length),
          (eksTopology.get ⟨k', hk'⟩).name = "eks-cluster" → k' = 9 := by decide
      exact hdec k hk hname
    subst hk9
    rw [happ] at htr
    dsimp only at htr
    rw [htr]
    refine ⟨by decide, by decide, ?_⟩
    intro m hm
    obtain ⟨p, hp, hpm, hclm⟩ := depsIn_sub hm
    have hall : ∀ p ∈ toNodes eksTopology, "eks-cluster" ∈ p.2 →
        p.1 ∉ [] ++ (eksTopology.take (9 + 1)).map Descriptor.name := by decide
    rw [← hpm]
    exact hall p hp hclm

/-- Witness for C4: against the collaborator that fails exactly on the
cluster call, the run fails at the cluster and the node group is never
attempted. -/
theorem cluster_failure_aborts_dependents_witness :
    (applyGraph eksTopology failCollab eksExports).result =
      .error (.provisioningFailed "eks-cluster" "boom") ∧
    "eks-node-group" ∉ (applyGraph eksTopology failCollab eksExports).trace := by
  refine ⟨by decide, ?_⟩
  exact (cluster_failure_aborts_dependents failCollab "boom" (by decide)).1

/-- C5: after every successful run on the fixed topology, the export set
holds exactly the five registered export names, in registration order,
each mapped to the corresponding descriptor's resolved output attribute
in the run's ResolvedOutput store. -/
theorem exports_exactly_five (collab : Collab) (es : List (String × String))
    (h : (applyGraph eksTopology collab eksExports).result = .ok es) :
    es.map Prod.fst = ["cluster-name", "cluster endpoint",
      "cluster certificate authorty", "cluster role arn", "pod role name"] ∧
    ∃ v1 v2 v3 v4 v5,
      es = [("cluster-name", v1), ("cluster endpoint", v2),
            ("cluster certificate authorty", v3), ("cluster role arn", v4),
            ("pod role name", v5)] ∧
      lookupOut (applyGraph eksTopology collab eksExports).resolved
        "eks-cluster" "name" = some v1 ∧
      lookupOut (applyGraph eksTopology collab eksExports).resolved
        "eks-cluster" "endpoint" = some v2 ∧
      lookupOut (applyGraph eksTopology collab eksExports).resolved
        "eks-cluster" "certificate_authority" = some v3 ∧
      lookupOut (applyGraph eksTopology collab eksExports).resolved
        "eks-role" "arn" = some v4 ∧
      lookupOut (applyGraph eksTopology collab eksExports).resolved
        "pod-execution-role" "name" = some v5 := by
  rw [applyGraph_eks] at h ⊢
  unfold runDescs at h ⊢
  rcases happ : applyLoop collab eksTopology [] [] with ⟨tr, ste⟩
  rcases ste with ⟨st, err⟩
  rw [happ] at h
  cases err with
  | some e =>
    dsimp only at h
    cases h
  | none =>
    dsimp only at h ⊢
    cases hcol : collectExports st eksExports with
    | error e =>
      rw [hcol] at h
      dsimp only at h
      cases h
    | ok es0 =>
      rw [hcol] at h
      dsimp only at h ⊢
      injection h with h'
      subst h'
      have hspec := collectExports_ok_spec hcol
      have hspec' : List.Forall₂
          (fun (r : String × String × String) (ex : String × String) =>
            ex.1 = r.1 ∧ lookupOut st r.2.1 r.2.2 = some ex.2)
          [("cluster-name", "eks-cluster", "name"),
           ("cluster endpoint", "eks-cluster", "endpoint"),
           ("cluster certificate authorty", "eks-cluster", "certificate_authority"),
           ("cluster role arn", "eks-role", "arn"),
           ("pod role name", "pod-execution-role", "name")] es0 := hspec
      rcases hspec' with _ | ⟨⟨h11, h12⟩, hr1⟩
      rcases hr1 with _ | ⟨⟨h21, h22⟩, hr2⟩
      rcases hr2 with _ | ⟨⟨h31, h32⟩, hr3⟩
      rcases hr3 with _ | ⟨⟨h41, h42⟩, hr4⟩
      rcases hr4 with _ | ⟨⟨h51, h52⟩, hr5⟩
      rcases hr5 with _ | _
      rename_i x1 x2 x3 x4 x5
      refine ⟨?_, x1.2, x2.2, x3.2, x4.2, x5.2, ?_, h12, h22, h32, h42, h52⟩
      · simp only [List.map_cons, List.map_nil, h11, h21, h31, h41, h51]
      · have e1 : x1 = ("cluster-name", x1.2) := Prod.ext h11 rfl
        have e2 : x2 = ("cluster endpoint", x2.2) := Prod.ext h21 rfl
        have e3 : x3 = ("cluster certificate authorty", x3.2) := Prod.ext h31 rfl
        have e4 : x4 = ("cluster role arn", x4.2) := Prod.ext h41 rfl
        have e5 : x5 = ("pod role name", x5.2) := Prod.ext h51 rfl
        rw [← e1, ← e2, ← e3, ← e4, ← e5]

/-- Witness for C5: the fully successful `okCollab` run produces exactly
the five registered exports. -/
theorem exports_exactly_five_witness :
    (applyGraph eksTopology okCollab eksExports).result = .ok eksOkExports ∧
    eksOkExports.map Prod.fst = ["cluster-name", "cluster endpoint",
      "cluster certificate authorty", "cluster role arn", "pod role name"] := by
  refine ⟨by decide, ?_⟩
  exact (exports_exactly_five okCollab eksOkExports (by decide)).1

/-- C7: when the applier processes a well-formed acyclic graph in the
computed topological order, the UnresolvedDependencyError branch of
reference substitution is unreachable — every dependency's apply call has
returned and published its ResolvedOutput (including, as the claim's
"published its ResolvedOutput" requires, every referenced attribute)
before any node referencing it is substituted, so the run never ends in
UnresolvedDependencyError. -/
theorem unresolved_unreachable (g : List Descriptor) (collab : Collab)
    (exps : List (String × String × String))
    (hwf : WellFormed (toNodes g)) (hac : ¬ HasCycle (toNodes g))
    (hadq : CollabAdequate g collab) :
    ∀ n a, (applyGraph g collab exps).result ≠ .error (.unresolvedDependency n a) := by
  intro n a hres
  rw [applyGraph_eq_runDescs g collab exps hwf hac] at hres
  have hloop := runDescs_result_unresolved hres
  obtain ⟨hmap, hsubg⟩ := filterMap_find_matches g (kahn (toNodes g)) (kahn_sub _)
  refine applyLoop_no_unresolved hadq
    ((kahn (toNodes g)).filterMap (fun n => g.find? (fun d => d.name == n))) [] []
    hsubg ?_ ?_ ?_ n a hloop
  · rw [hmap]
    exact kahn_nodup _
  · intro d _ e he
    cases he
  · intro i hi r hr
    right
    have hdb : DepsBefore (toNodes g)
        (((kahn (toNodes g)).filterMap
          (fun n => g.find? (fun d => d.name == n))).map Descriptor.name) := by
      rw [hmap]
      exact kahn_depsBefore _ hwf.1
    have hi' : i < (((kahn (toNodes g)).filterMap
        (fun n => g.find? (fun d => d.name == n))).map Descriptor.name).length := by
      rw [List.length_map]
      exact hi
    have hmem : r.1 ∈ depsIn (toNodes g)
        ((((kahn (toNodes g)).filterMap
          (fun n => g.find? (fun d => d.name == n))).map Descriptor.name).get ⟨i, hi'⟩) := by
      have hget : ((((kahn (toNodes g)).filterMap
          (fun n => g.find? (fun d => d.name == n))).map Descriptor.name).get ⟨i, hi'⟩)
          = (((kahn (toNodes g)).filterMap
            (fun n => g.find? (fun d => d.name == n))).get ⟨i, hi⟩).name := by
        rw [List.get_eq_getElem, List.get_eq_getElem]
        exact List.getElem_map Descriptor.name
      rw [hget, depsIn_toNodes g hwf.1 (hsubg _ (List.get_mem _ i hi))]
      exact refs_fst_mem_deps hr
    have hconc := hdb i hi' r.1 hmem
    rw [List.map_take]
    exact hconc

/-- Witness helper is the adequacy of the all-succeeding collaborator;
instantiating C7 at the fixed topology shows its run cannot end in
UnresolvedDependencyError. -/
lemma okCollab_adequate : CollabAdequate eksTopology okCollab := by
  intro nm ins outs h d hd r hr hnm
  have h' : (Except.ok okOuts : Except String (List (String × String))) = .ok outs := h
  injection h' with h''
  have hall : ∀ d ∈ eksTopology, ∀ r ∈ Descriptor.refs d,
      (lookupAttr okOuts r.2).isSome = true := by decide
  rw [← h'']
  exact hall d hd r hr

/-- Witness for C7: the successful run on the fixed topology does not
end in UnresolvedDependencyError for the OIDC url reference. -/
theorem unresolved_unreachable_witness :
    (applyGraph eksTopology okCollab eksExports).result ≠
      .error (.unresolvedDependency "eks-oidc" "url") :=
  unresolved_unreachable eksTopology okCollab eksExports (by decide)
    eksTopology_not_hasCycle okCollab_adequate "eks-oidc" "url"

/-- C8: the two Subnet nodes are independent — neither depends on the
other — and the two runs that complete them in the two relative orders
(every other node kept in place) produce identical export sets whenever
both succeed. -/
theorem subnet_order_irrelevant (collab : Collab) (es1 es2 : List (String × String))
    (h1 : (runDescs collab
      ([vpc, igw] ++ public_subnet_1 :: public_subnet_2 :: eksTail)
      eksExports).result = .ok es1)
    (h2 : (runDescs collab
      ([vpc, igw] ++ public_subnet_2 :: public_subnet_1 :: eksTail)
      eksExports).result = .ok es2) :
    es1 = es2 := by
  obtain ⟨hl1, hc1⟩ := runDescs_ok h1
  obtain ⟨hl2, hc2⟩ := runDescs_ok h2
  rw [applyLoop_append] at hl1 hl2 hc1 hc2
  rcases hpre : applyLoop collab [vpc, igw] [] [] with ⟨tr0, ste0⟩
  rcases ste0 with ⟨st0, err0⟩
  rw [hpre] at hl1 hl2 hc1 hc2
  cases err0 with
  | some e =>
    dsimp only at hl1
    cases hl1
  | none =>
    dsimp only at hl1 hl2 hc1 hc2
    obtain ⟨hn2, hstv⟩ := applyLoop_swap collab public_subnet_1 public_subnet_2
      eksTail st0 tr0 tr0 (by decide) (by decide) (by decide) hl1
    have hcc := collectExports_congr hstv eksExports
    rw [hc1, hc2] at hcc
    injection hcc

/-- Witness for C8: under the all-succeeding collaborator both subnet
completion orders succeed and yield the very same export set. -/
theorem subnet_order_irrelevant_witness :
    (runDescs okCollab
      ([vpc, igw] ++ public_subnet_1 :: public_subnet_2 :: eksTail)
      eksExports).result = .ok eksOkExports ∧
    (runDescs okCollab
      ([vpc, igw] ++ public_subnet_2 :: public_subnet_1 :: eksTail)
      eksExports).result = .ok eksOkExports ∧
    eksOkExports = eksOkExports :=
  ⟨by decide, by decide,
   subnet_order_irrelevant okCollab eksOkExports eksOkExports (by decide) (by decide)⟩

end PulumiEks
